import Mathlib

/-!
Shallow embedding of the consensus pipeline of `consensus.py`
(spectrassembler): window partitioning (`fill_window`), window count
computation (`run_spoa_in_cc`), consensus extraction (`get_consensus`),
and the stitching pass (`add_next_window`, `merge_windows_in_cc`).

Python strings are modelled as lists of characters, each line of a file
keeping its trailing newline character.  The external spoa alignment
engine is an abstract parameter: a function from the two sequences
written to the temporary poa input file to the lines of the engine's
output file.  A window's engine-output (`.cnsns`) file is modelled as
`Option (List Str)`: `none` when the file does not exist, `some lines`
for its content (`lines = []` for an existing file of size 0).
-/

set_option maxRecDepth 4000

namespace Spectrassembler

/-- Sequences (Python `str` / bytes) as lists of characters. -/
abbrev Str := List Char

/-- Clamping of a Python slice endpoint: a negative index counts from the
end of the sequence, and the result is clamped into `[0, n]`. -/
def pyIdx (n : Nat) (i : Int) : Nat :=
  if i < 0 then ((n : Int) + i).toNat else min i.toNat n

/-- Python slice `s[a:b]` with step 1. -/
def pySlice (s : Str) (a b : Int) : Str :=
  (s.take (pyIdx s.length b)).drop (pyIdx s.length a)

/-- Python `range(a, b)` (equivalently `xrange(a, b)`) over ints. -/
def pyRange (a b : Int) : List Int :=
  (List.range (b - a).toNat).map (fun i : Nat => a + (i : Int))

/-- `get_consensus(out_fn, trim_margin)` of consensus.py, on the lines of
the engine output file: empty result for an empty file, otherwise the
last line with its final character removed (`lines[-1][:-1]`) and then
`trim_margin` characters clipped from each side by Python slicing
(`consensus[trim_margin : len(consensus) - trim_margin]`). -/
def get_consensus (lines : List Str) (trim_margin : Nat) : Str :=
  if lines.length = 0 then []
  else
    let consensus := pySlice (lines.getLastD []) 0 (-1)
    pySlice consensus (trim_margin : Int) ((consensus.length : Int) - trim_margin)

/-- `kept_len = max(0, whole_cons_len - next_win_len - MERGE_MARGIN)` from
`add_next_window` of consensus.py. -/
def keptLen (whole_len next_len merge_margin : Nat) : Nat :=
  (max 0 ((whole_len : Int) - (next_len : Int) - (merge_margin : Int))).toNat

/-- `add_next_window` of consensus.py.  `file` is the content of the
window's `.cnsns` engine-output file (`none` = file does not exist,
`some []` = file of size 0): in both cases the function returns
`whole_cons` unchanged.  Otherwise the next window's consensus sequence
is extracted with `get_consensus`, `whole_cons` is split at `kept_len`,
and the tail is re-aligned with the next sequence by the engine
(`run_spoa_and_consensus`, whose returned consensus is
`get_consensus` of the engine's output file with trim margin 0). -/
def add_next_window (engine : Str → Str → List Str) (file : Option (List Str))
    (whole_cons : Str) (merge_margin trim_margin : Nat) : Str :=
  match file with
  | none => whole_cons
  | some lines =>
    if lines.length = 0 then whole_cons
    else
      let next_win_seq := get_consensus lines trim_margin
      let kept_len := keptLen whole_cons.length next_win_seq.length merge_margin
      let cons0 := pySlice whole_cons 0 (kept_len : Int)
      let cons1 := pySlice whole_cons (kept_len : Int) (whole_cons.length : Int)
      let cons1b := get_consensus (engine cons1 next_win_seq) 0
      cons0 ++ cons1b

/-- `merge_windows_in_cc` of consensus.py, for a component whose window
count (counted by `ls ... | wc -l` in the source) is `n_win`.
`files w` is the content of window `w`'s `.cnsns` file.  The
initialization opens window 0's file unguarded: a missing file raises
IOError, modelled as `none`.  The three loops are
`xrange(0, 3)`, `xrange(3, n_win - 3)` and `xrange(n_win - 3, n_win)`
with trim margins `0`, `TRIM_MARGIN` and `0` respectively. -/
def merge_windows_in_cc (engine : Str → Str → List Str)
    (files : Int → Option (List Str)) (n_win : Nat)
    (trim_margin merge_margin : Nat) : Option Str :=
  match files 0 with
  | none => none
  | some lines0 =>
    let c0 := get_consensus lines0 trim_margin
    let c1 := (pyRange 0 3).foldl
      (fun c w => add_next_window engine (files w) c merge_margin 0) c0
    let c2 := (pyRange 3 ((n_win : Int) - 3)).foldl
      (fun c w => add_next_window engine (files w) c merge_margin trim_margin) c1
    let c3 := (pyRange ((n_win : Int) - 3) (n_win : Int)).foldl
      (fun c w => add_next_window engine (files w) c merge_margin 0) c2
    some c3

/-- The schedule of stitching transitions of `merge_windows_in_cc`:
the list of (window index, trim margin) pairs passed to
`add_next_window`, in order. -/
def mergeSchedule (n_win trim_margin : Nat) : List (Int × Nat) :=
  (pyRange 0 3).map (fun w => (w, 0)) ++
  (pyRange 3 ((n_win : Int) - 3)).map (fun w => (w, trim_margin)) ++
  (pyRange ((n_win : Int) - 3) (n_win : Int)).map (fun w => (w, 0))

/-- A read of the connected component, after normalization: its sequence
and its begin/end coordinates (`bpos_list[idx]`, `epos_list[idx]`). -/
structure Read where
  seq : Str
  bpos : Int
  epos : Int
deriving DecidableEq

/-- `fill_window` of consensus.py (the windowing body shared with
`fill_and_run_spoa`), returning the list of read fragments written to
window `w_idx`'s poa input file: reads are selected by
`bpos_list < w_e AND epos_list > w_b`, each selected read is clipped to
`[max(0, w_b - bpos), min(read_len, w_e - bpos))`, and fragments with
`ee - bb < 20` are skipped. -/
def fill_window (wLen wOvl : Nat) (w_idx : Nat) (reads : List Read) : List Str :=
  let w_b : Int := ((wLen : Int) - (wOvl : Int)) * w_idx
  let w_e : Int := w_b + wLen
  (reads.filter (fun r => r.bpos < w_e && r.epos > w_b)).filterMap (fun r =>
    let read_len := r.seq.length
    let bb := max 0 (w_b - r.bpos)
    let ee := min (read_len : Int) (w_e - r.bpos)
    if ee - bb < 20 then none
    else some (pySlice r.seq bb ee))

/-- The partitioner contract as the spec words it: keep exactly the
reads whose interval intersects the window (`begin < end_w` and
`end > begin_w`), clip each to
`[max(0, begin_w - begin), min(readLength, end_w - begin)]`, and discard
clipped fragments whose length is below 20. -/
def fill_window_spec (wLen wOvl : Nat) (w_idx : Nat) (reads : List Read) : List Str :=
  let w_b : Int := ((wLen : Int) - (wOvl : Int)) * w_idx
  let w_e : Int := w_b + wLen
  reads.filterMap (fun r =>
    if r.bpos < w_e ∧ r.epos > w_b then
      let frag := pySlice r.seq (max 0 (w_b - r.bpos))
        (min ((r.seq.length : Nat) : Int) (w_e - r.bpos))
      if frag.length < 20 then none else some frag
    else none)

/-- The window count of `run_spoa_in_cc`:
`cons_len = epos_list.max() - bpos_list.min()`,
`n_windows = cons_len // (W_LEN - W_OVL_LEN) + 1` (Python floor
division).  `none` models the numpy exception raised by `.max()` /
`.min()` on an empty array. -/
def n_windows (bpos_list epos_list : List Int) (wLen wOvl : Nat) : Option Int :=
  match epos_list.max?, bpos_list.min? with
  | some emax, some bmin =>
      some ((emax - bmin).fdiv ((wLen : Int) - (wOvl : Int)) + 1)
  | _, _ => none

/-- The window count used by `merge_windows_in_cc`:
`ls ROOT/cc_i/poa_in_cc_i_win_*.fast*.cnsns | wc -l`.  A window's
`.cnsns` file exists exactly when its poa input file was non-empty
(`run_spoa` returns without creating the output for a missing or empty
input file), and input files exist only for the `bound` window indices
submitted by `run_spoa_in_cc`. -/
def listedWindowCount (wLen wOvl : Nat) (reads : List Read) (bound : Nat) : Nat :=
  ((List.range bound).filter
    (fun w => !(fill_window wLen wOvl w reads).isEmpty)).length

/-- The window indices whose poa jobs `run_spoa_in_cc` actually submits:
the `N_PROC > 1` branch maps `fill_and_run_spoa` over
`range(n_windows)`; the sequential branch of the source is commented
out, so nothing is submitted otherwise. -/
def submittedWindows (n_proc : Nat) (nw : Nat) : List Nat :=
  if 1 < n_proc then List.range nw else []

/-- Basic facts about `pyRange` membership. -/
theorem mem_pyRange {a b w : Int} : w ∈ pyRange a b ↔ a ≤ w ∧ w < b := by
  unfold pyRange
  simp only [List.mem_map, List.mem_range]
  constructor
  · rintro ⟨i, hi, rfl⟩
    omega
  · rintro ⟨h1, h2⟩
    exact ⟨(w - a).toNat, by omega, by omega⟩

/-- Concatenating adjacent Python ranges. -/
theorem pyRange_split (a b c : Int) (h1 : a ≤ b) (h2 : b ≤ c) :
    pyRange a b ++ pyRange b c = pyRange a c := by
  unfold pyRange
  have h3 : (c - a).toNat = (b - a).toNat + (c - b).toNat := by omega
  rw [h3, List.range_add, List.map_append, List.map_map]
  congr 1
  apply List.map_congr_left
  intro i _
  simp only [Function.comp_apply]
  omega

/-- `merge_windows_in_cc` is the fold of `add_next_window` over
`mergeSchedule`, starting from window 0's consensus extracted with the
configured trim margin. -/
theorem merge_windows_eq_schedule_fold (engine : Str → Str → List Str)
    (files : Int → Option (List Str)) (n_win trim_margin merge_margin : Nat) :
    merge_windows_in_cc engine files n_win trim_margin merge_margin =
      (files 0).map (fun lines0 =>
        (mergeSchedule n_win trim_margin).foldl
          (fun c wm => add_next_window engine (files wm.1) c merge_margin wm.2)
          (get_consensus lines0 trim_margin)) := by
  unfold merge_windows_in_cc mergeSchedule
  cases files 0 with
  | none => rfl
  | some lines0 =>
    simp [List.foldl_append, List.foldl_map]

/-- Taking at most the length is the same as taking. -/
theorem take_min_length (s : Str) (k : Nat) : s.take (min k s.length) = s.take k := by
  rcases le_total k s.length with h | h
  · rw [min_eq_left h]
  · rw [min_eq_right h, List.take_length, List.take_of_length_le h]

/-- Dropping at most the length is the same as dropping. -/
theorem drop_min_length (s : Str) (k : Nat) : s.drop (min k s.length) = s.drop k := by
  rcases le_total k s.length with h | h
  · rw [min_eq_left h]
  · rw [min_eq_right h, List.drop_length,
      List.drop_eq_nil_of_le h]

/-- The Python slice `s[0:k]` for a natural `k` is `take k`. -/
theorem pySlice_zero_take (s : Str) (k : Nat) : pySlice s 0 (k : Int) = s.take k := by
  unfold pySlice pyIdx
  rw [if_neg (by omega : ¬ ((k : Int) < 0)), if_neg (by omega : ¬ ((0 : Int) < 0))]
  simp only [Int.toNat_ofNat, Int.toNat_zero, Nat.zero_min, List.drop_zero]
  exact take_min_length s k

/-- The Python slice `s[k:len(s)]` for a natural `k` is `drop k`. -/
theorem pySlice_take_len_drop (s : Str) (k : Nat) :
    pySlice s (k : Int) (s.length : Int) = s.drop k := by
  unfold pySlice pyIdx
  rw [if_neg (by omega : ¬ ((s.length : Int) < 0)), if_neg (by omega : ¬ ((k : Int) < 0))]
  simp only [Int.toNat_ofNat, min_self, List.take_length]
  exact drop_min_length s k

/-- C3: for every running consensus string and every window whose
engine-output (`.cnsns`) file is missing or empty — the realization of a
missing/empty window consensus — the stitching transition
`add_next_window` returns the running consensus unchanged, and this is a
total (non-error) path. -/
theorem add_next_window_noop_on_missing_or_empty
    (engine : Str → Str → List Str) (whole_cons : Str) (mm tm : Nat) :
    add_next_window engine none whole_cons mm tm = whole_cons ∧
    add_next_window engine (some []) whole_cons mm tm = whole_cons :=
  ⟨rfl, rfl⟩

/-- C4: in every stitching transition the kept length equals
`max(0, len(RunningConsensus) - len(nextSeq) - mergeMargin)`, is never
negative (it is a natural number equal to that clamped value), is at
most the running consensus length, and splitting the running consensus
at it with the very slices `add_next_window` takes reassembles the
string — the split never goes out of bounds. -/
theorem keptLen_safe (whole nws : Str) (mm : Nat) :
    ((keptLen whole.length nws.length mm : Nat) : Int)
        = max 0 ((whole.length : Int) - (nws.length : Int) - (mm : Int)) ∧
    keptLen whole.length nws.length mm ≤ whole.length ∧
    pySlice whole 0 (keptLen whole.length nws.length mm : Int)
        ++ pySlice whole (keptLen whole.length nws.length mm : Int)
          (whole.length : Int) = whole := by
  refine ⟨?_, ?_, ?_⟩
  · unfold keptLen; omega
  · unfold keptLen; omega
  · rw [pySlice_zero_take, pySlice_take_len_drop]
    exact List.take_append_drop _ _

/-- C8: evaluation of the submission set of `run_spoa_in_cc`: with
parallelism `N_PROC = 1` no window job is submitted at all (the
sequential branch of the source is commented out), while with
`N_PROC = 2` every window index in `[0, n)` is submitted.  This refutes
the claim for parallelism level 1. -/
theorem submittedWindows_eval :
    submittedWindows 1 4 = [] ∧ submittedWindows 2 4 = List.range 4 := by
  decide

/-- C9: evaluation at the failing input: when window 0's engine-output
file is missing (e.g. the component's reads give window 0 no fragment of
length at least 20, or the read set is empty), `merge_windows_in_cc`
fails (IOError from the unguarded `open`, modelled as `none`) instead of
returning an empty consensus; and `run_spoa_in_cc`'s window count
computation fails on an empty read set (numpy `.max()` on an empty
array, modelled as `none`). -/
theorem merge_windows_error_on_missing_window0 :
    merge_windows_in_cc (fun _ _ => []) (fun _ => none) 3 50 100 = none ∧
    n_windows [] [] 100 20 = none :=
  ⟨rfl, rfl⟩

/-- C2: every stitching transition recorded in `mergeSchedule` uses trim
margin 0 when its window index is among the first 3 (`w < 3`) or last 3
(`n - 3 <= w`) windows, and the configured `TRIM_MARGIN` otherwise. -/
theorem mergeSchedule_margin (n tm : Nat) (w : Int) (m : Nat)
    (hmem : (w, m) ∈ mergeSchedule n tm) :
    ((w < 3 ∨ (n : Int) - 3 ≤ w) → m = 0) ∧
    (3 ≤ w → w < (n : Int) - 3 → m = tm) := by
  unfold mergeSchedule at hmem
  simp only [List.mem_append, List.mem_map, mem_pyRange, Prod.mk.injEq] at hmem
  rcases hmem with (⟨x, hx, rfl, rfl⟩ | ⟨x, hx, rfl, rfl⟩) | ⟨x, hx, rfl, rfl⟩ <;>
    constructor <;> intros <;> omega

/-- Witness for C2 at the spec's example `n = 10`, `TRIM_MARGIN = 50`:
window 3 is scheduled with margin 50. -/
theorem mergeSchedule_margin_witness :
    ((3 : Int), (50 : Nat)) ∈ mergeSchedule 10 50 ∧
    ((((3 : Int) < 3 ∨ (10 : Int) - 3 ≤ 3) → (50 : Nat) = 0) ∧
      ((3 : Int) ≤ 3 → (3 : Int) < (10 : Int) - 3 → (50 : Nat) = 50)) :=
  ⟨by decide, mergeSchedule_margin 10 50 3 50 (by decide)⟩

/-- C5: on the non-skipped path, the stitching transition returns exactly
the kept head of the running consensus (its first `kept_len` characters,
unchanged) concatenated with the re-aligned stitched tail, so the first
`kept_len` characters of the result coincide with those of the input. -/
theorem add_next_window_frame (engine : Str → Str → List Str)
    (lines : List Str) (whole : Str) (mm tm : Nat) (h : ¬ lines.length = 0) :
    add_next_window engine (some lines) whole mm tm
        = whole.take (keptLen whole.length (get_consensus lines tm).length mm)
          ++ get_consensus
              (engine
                (whole.drop (keptLen whole.length (get_consensus lines tm).length mm))
                (get_consensus lines tm)) 0 ∧
    (add_next_window engine (some lines) whole mm tm).take
        (keptLen whole.length (get_consensus lines tm).length mm)
      = whole.take (keptLen whole.length (get_consensus lines tm).length mm) := by
  have hk : keptLen whole.length (get_consensus lines tm).length mm ≤ whole.length := by
    unfold keptLen; omega
  have hstep : add_next_window engine (some lines) whole mm tm =
      if lines.length = 0 then whole
      else
        pySlice whole 0 ((keptLen whole.length (get_consensus lines tm).length mm : Nat) : Int)
          ++ get_consensus
            (engine
              (pySlice whole
                ((keptLen whole.length (get_consensus lines tm).length mm : Nat) : Int)
                (whole.length : Int))
              (get_consensus lines tm)) 0 := rfl
  rw [hstep, if_neg h, pySlice_zero_take, pySlice_take_len_drop]
  refine ⟨rfl, ?_⟩
  rw [List.take_append_of_le_length (by simp only [List.length_take]; omega),
    List.take_take, min_self]

/-- Engine stand-in used by concrete witnesses: its output file holds one
line, the two input sequences concatenated, plus a newline. -/
def engineEx : Str → Str → List Str := fun c1 nws => [c1 ++ nws ++ ['\n']]

/-- Witness for C5 at a concrete window file, running consensus and
margins. -/
theorem add_next_window_frame_witness :
    ¬ ([['G', 'G', '\n']] : List Str).length = 0 ∧
    (add_next_window engineEx (some [['G', 'G', '\n']]) ['X', 'Y', 'Z'] 0 0
        = (['X', 'Y', 'Z'] : Str).take
            (keptLen (['X', 'Y', 'Z'] : Str).length
              (get_consensus [['G', 'G', '\n']] 0).length 0)
          ++ get_consensus
              (engineEx
                ((['X', 'Y', 'Z'] : Str).drop
                  (keptLen (['X', 'Y', 'Z'] : Str).length
                    (get_consensus [['G', 'G', '\n']] 0).length 0))
                (get_consensus [['G', 'G', '\n']] 0)) 0 ∧
      (add_next_window engineEx (some [['G', 'G', '\n']]) ['X', 'Y', 'Z'] 0 0).take
          (keptLen (['X', 'Y', 'Z'] : Str).length
            (get_consensus [['G', 'G', '\n']] 0).length 0)
        = (['X', 'Y', 'Z'] : Str).take
            (keptLen (['X', 'Y', 'Z'] : Str).length
              (get_consensus [['G', 'G', '\n']] 0).length 0)) :=
  ⟨by decide, add_next_window_frame engineEx [['G', 'G', '\n']] ['X', 'Y', 'Z'] 0 0 (by decide)⟩

/-- Splitting a list into a head of length `t`, a middle, and a tail of
length `t`, when `2 * t` is less than its length. -/
theorem take_drop_split (c : Str) (t : Nat) (h : 2 * t < c.length) :
    c = c.take t ++ (c.take (c.length - t)).drop t ++ c.drop (c.length - t) ∧
    (c.take t).length = t ∧ (c.drop (c.length - t)).length = t := by
  have hmid : c.take t ++ (c.take (c.length - t)).drop t = c.take (c.length - t) := by
    conv_rhs => rw [← List.take_append_drop t (c.take (c.length - t))]
    congr 1
    rw [List.take_take, min_eq_left (by omega : t ≤ c.length - t)]
  refine ⟨?_, ?_, ?_⟩
  · calc c = c.take (c.length - t) ++ c.drop (c.length - t) :=
        (List.take_append_drop _ _).symm
      _ = (c.take t ++ (c.take (c.length - t)).drop t) ++ c.drop (c.length - t) := by
        rw [hmid]
  · simp only [List.length_take]; omega
  · simp only [List.length_drop]; omega

/-- C10: `get_consensus` is total on any file content and trim margin:
an empty file yields the empty string; when the last line with its final
character removed has length at most `2 * t` the result is the empty
string rather than a failure; otherwise the result is that string with
exactly `t` characters removed from each end. -/
theorem get_consensus_total :
    (∀ t : Nat, get_consensus [] t = []) ∧
    ∀ (lines : List Str) (t : Nat), lines ≠ [] →
      (((lines.getLastD []).take ((lines.getLastD []).length - 1)).length ≤ 2 * t →
          get_consensus lines t = []) ∧
      (2 * t < ((lines.getLastD []).take ((lines.getLastD []).length - 1)).length →
          ∃ a b : Str,
            (lines.getLastD []).take ((lines.getLastD []).length - 1)
              = a ++ get_consensus lines t ++ b ∧ a.length = t ∧ b.length = t) := by
  constructor
  · intro t; rfl
  · intro lines t hne
    have hlen : ¬ lines.length = 0 := fun h => hne (List.length_eq_zero.mp h)
    have hc : pySlice (lines.getLastD []) 0 (-1)
        = (lines.getLastD []).take ((lines.getLastD []).length - 1) := by
      unfold pySlice pyIdx
      rw [if_pos (by omega : (-1 : Int) < 0), if_neg (by omega : ¬ ((0 : Int) < 0))]
      have h1 : (((lines.getLastD []).length : Int) + (-1)).toNat
          = (lines.getLastD []).length - 1 := by omega
      rw [h1]
      simp only [Int.toNat_zero, Nat.zero_min, List.drop_zero]
    set c := (lines.getLastD []).take ((lines.getLastD []).length - 1) with hcdef
    have hgc : get_consensus lines t
        = pySlice c (t : Int) ((c.length : Int) - (t : Int)) := by
      unfold get_consensus
      rw [if_neg hlen, hc]
    constructor
    · intro hle
      rw [hgc]
      unfold pySlice pyIdx
      apply List.drop_eq_nil_of_le
      simp only [List.length_take]
      split_ifs <;> omega
    · intro hlt
      rw [hgc]
      have hs : pySlice c (t : Int) ((c.length : Int) - (t : Int))
          = (c.take (c.length - t)).drop t := by
        unfold pySlice pyIdx
        rw [if_neg (by omega : ¬ ((c.length : Int) - (t : Int) < 0)),
          if_neg (by omega : ¬ ((t : Int) < 0))]
        have h1 : ((c.length : Int) - (t : Int)).toNat = c.length - t := by omega
        have h2 : (t : Int).toNat = t := by omega
        rw [h1, h2, min_eq_left (by omega : c.length - t ≤ c.length),
          min_eq_left (by omega : t ≤ c.length)]
      rw [hs]
      obtain ⟨h1, h2, h3⟩ := take_drop_split c t hlt
      exact ⟨c.take t, c.drop (c.length - t), h1, h2, h3⟩

/-- Witness for C10 at a one-line file "ABCDE\n" and trim margin 1. -/
theorem get_consensus_total_witness :
    ([['A', 'B', 'C', 'D', 'E', '\n']] : List Str) ≠ [] ∧
    (((([['A', 'B', 'C', 'D', 'E', '\n']] : List Str).getLastD []).take
          ((([['A', 'B', 'C', 'D', 'E', '\n']] : List Str).getLastD []).length - 1)).length
        ≤ 2 * 1 →
        get_consensus [['A', 'B', 'C', 'D', 'E', '\n']] 1 = []) ∧
    (2 * 1 < ((([['A', 'B', 'C', 'D', 'E', '\n']] : List Str).getLastD []).take
          ((([['A', 'B', 'C', 'D', 'E', '\n']] : List Str).getLastD []).length - 1)).length →
        ∃ a b : Str,
          (([['A', 'B', 'C', 'D', 'E', '\n']] : List Str).getLastD []).take
              ((([['A', 'B', 'C', 'D', 'E', '\n']] : List Str).getLastD []).length - 1)
            = a ++ get_consensus [['A', 'B', 'C', 'D', 'E', '\n']] 1 ++ b ∧
            a.length = 1 ∧ b.length = 1) :=
  ⟨by decide, get_consensus_total.2 [['A', 'B', 'C', 'D', 'E', '\n']] 1 (by decide)⟩

/-- Length of a Python slice with a non-negative start and an end within
bounds. -/
theorem pySlice_length_of_bounds (s : Str) (a b : Int) (ha : 0 ≤ a)
    (hb0 : 0 ≤ b) (hbl : b ≤ (s.length : Int)) :
    ((pySlice s a b).length : Int) = max 0 (b - min a (s.length : Int)) := by
  unfold pySlice pyIdx
  simp only [List.length_drop, List.length_take]
  split_ifs <;> omega

/-- C6: the windowing body of `fill_window` (and `fill_and_run_spoa`)
equals the partitioner contract as the spec words it — keep exactly the
reads whose interval intersects the window, clip to
`[max(0, begin_w - begin), min(readLength, end_w - begin)]`, discard
fragments of clipped length below 20 — and, at the boundary, a read
whose window fragment has length 19 contributes nothing while one of
length 20 is retained. -/
theorem fill_window_correct :
    (∀ (wLen wOvl w_idx : Nat) (reads : List Read),
      fill_window wLen wOvl w_idx reads = fill_window_spec wLen wOvl w_idx reads) ∧
    fill_window 100 20 0 [⟨List.replicate 19 'A', 0, 19⟩] = [] ∧
    fill_window 100 20 0 [⟨List.replicate 20 'A', 0, 20⟩] = [List.replicate 20 'A'] := by
  refine ⟨?_, by decide, by decide⟩
  intro wLen wOvl w_idx reads
  unfold fill_window fill_window_spec
  rw [List.filterMap_filter]
  apply List.filterMap_congr
  intro r _
  by_cases hsel : r.bpos < ((wLen : Int) - (wOvl : Int)) * w_idx + wLen ∧
      r.epos > ((wLen : Int) - (wOvl : Int)) * w_idx
  · rw [if_pos (by simpa using hsel), if_pos hsel]
    set w_b : Int := ((wLen : Int) - (wOvl : Int)) * w_idx with hwb
    have hlen : ((pySlice r.seq (max 0 (w_b - r.bpos))
        (min ((r.seq.length : Nat) : Int) (w_b + wLen - r.bpos))).length : Int)
        = max 0 (min ((r.seq.length : Nat) : Int) (w_b + wLen - r.bpos)
            - min (max 0 (w_b - r.bpos)) ((r.seq.length : Nat) : Int)) := by
      apply pySlice_length_of_bounds
      · omega
      · rcases hsel with ⟨h1, _⟩
        omega
      · omega
    by_cases hshort : min ((r.seq.length : Nat) : Int) (w_b + wLen - r.bpos)
        - max 0 (w_b - r.bpos) < 20
    · rw [if_pos hshort, if_pos (by omega)]
    · rw [if_neg hshort, if_neg (by omega)]
  · rw [if_neg (by simpa using hsel), if_neg hsel]

/-- C1 counterexample: window 0 IS passed through the stitching
transition — `(0, 0)` is in the transition schedule for `n = 10`,
`TRIM_MARGIN = 50` — and the initial running consensus is trimmed by the
configured `TRIM_MARGIN`, not by margin 0: for a single-window component
whose window-0 file holds "XYZ\n" and `TRIM_MARGIN = 1`, the final
consensus differs from the margin-0 window-0 consensus the claim
prescribes (the code yields `some []`, the claim `some "XYZ"`). -/
theorem merge_window0_transitioned_counterexample :
    (((0 : Int), (0 : Nat)) ∈ mergeSchedule 10 50) ∧
    merge_windows_in_cc (fun _ _ => [])
        (fun w => if w = 0 then some [['X', 'Y', 'Z', '\n']] else none) 1 1 0
      ≠ some (get_consensus [['X', 'Y', 'Z', '\n']] 0) := by
  constructor
  · decide
  · decide

/-- C1 (amended): the running consensus is initialized to window 0's
consensus trimmed by the configured `TRIM_MARGIN` on both ends, and for
a component with `n ≥ 6` windows `merge_windows_in_cc` applies the
stitching transition exactly once for each window index `w = 0 .. n-1`
in increasing order — window 0 included. -/
theorem merge_init_and_schedule (n tm : Nat) (engine : Str → Str → List Str)
    (files : Int → Option (List Str)) (lines0 : List Str) (mm : Nat)
    (h6 : 6 ≤ n) (h0 : files 0 = some lines0) :
    (mergeSchedule n tm).map Prod.fst = pyRange 0 n ∧
    merge_windows_in_cc engine files n tm mm
      = some ((mergeSchedule n tm).foldl
          (fun c wm => add_next_window engine (files wm.1) c mm wm.2)
          (get_consensus lines0 tm)) := by
  constructor
  · have hfst : ∀ (m : Nat) (l : List Int),
        (l.map (fun w => (w, m))).map Prod.fst = l := by
      intro m l
      rw [List.map_map]
      exact List.map_id l
    unfold mergeSchedule
    rw [List.map_append, List.map_append, hfst, hfst, hfst,
      pyRange_split 0 3 ((n : Int) - 3) (by omega) (by omega),
      pyRange_split 0 ((n : Int) - 3) (n : Int) (by omega) (by omega)]
  · rw [merge_windows_eq_schedule_fold, h0]
    rfl

/-- Window-0-only staging area used by the C1 witness. -/
def filesEx : Int → Option (List Str) := fun w =>
  if w = 0 then some [['A', '\n']] else none

/-- Witness for the amended C1 at `n = 10`, `TRIM_MARGIN = 50`. -/
theorem merge_init_and_schedule_witness :
    6 ≤ 10 ∧ filesEx 0 = some [['A', '\n']] ∧
    ((mergeSchedule 10 50).map Prod.fst = pyRange 0 10 ∧
      merge_windows_in_cc engineEx filesEx 10 50 7
        = some ((mergeSchedule 10 50).foldl
            (fun c wm => add_next_window engineEx (filesEx wm.1) c 7 wm.2)
            (get_consensus [['A', '\n']] 50))) :=
  ⟨by decide, by decide,
    merge_init_and_schedule 10 50 engineEx filesEx [['A', '\n']] 7
      (by decide) (by decide)⟩

/-- The reads of the C7 failing input: read A covers `[0, 95)`, read B
covers `[165, 260)`, both with 95-base sequences. -/
def readA : Read := ⟨List.replicate 95 'A', 0, 95⟩

/-- Second read of the C7 failing input. -/
def readB : Read := ⟨List.replicate 95 'C', 165, 260⟩

/-- C7: evaluation at the failing input.  With `W_LEN = 100`,
`W_OVL_LEN = 20` and reads `[0,95)`, `[165,260)`, the partitioner's own
count is `n = 260 // 80 + 1 = 4`, but window 1 receives no fragment of
length ≥ 20, so only 3 `.cnsns` files exist and the directory-listing
count the stitching phase actually uses is 3 ≠ 4; with `n_win = 3` the
stitching schedule never visits window 3, whose consensus exists. -/
theorem window_count_listing_mismatch :
    n_windows [0, 165] [95, 260] 100 20 = some 4 ∧
    listedWindowCount 100 20 [readA, readB] 4 = 3 ∧
    listedWindowCount 100 20 [readA, readB] 4 ≠ 4 ∧
    (((3 : Int), (0 : Nat)) ∉ mergeSchedule 3 50 ∧
      ((3 : Int), (50 : Nat)) ∉ mergeSchedule 3 50) := by
  refine ⟨by decide, by decide, by decide, by decide, by decide⟩
